import Mathlib

/-!
Shallow embedding of the transaction / payroll ledger core of the
Chai-Insights-Pro repository.

Conventions of the embedding:
* JS `number` amounts are modelled exactly as rationals (`ℚ`); the decimal
  literals `0.40` / `0.60` of the source are exact rationals.
* ISO timestamp strings are modelled as `Int` minutes since the epoch; the
  calendar-day part of `Date.toISOString()` is the floor division by 1440
  (`utcDay`), and `t.date.startsWith(dayString)` on two `toISOString`
  outputs is UTC-calendar-day equality.  `localDay off ts` models the
  device-local calendar day for a fixed UTC offset `off` in minutes; the
  source never uses it for bucketing, it is needed only to state the
  specification's "local zone" wording.
* Staff ids are produced by `Date.now().toString()` in the source; since
  `toString` is injective on timestamps the embedding keeps the numeric
  timestamp as the id.
* Empty-versus-filled text inputs: the salary / amount form fields are
  strings in the source, validated by JS truthiness (`!s` ⇔ `s = ""`) and
  `isNaN(Number(s))`.  The embedding represents such a field as
  `Option ℚ`: `none` for an empty or non-numeric field, `some q` for a
  field holding the numeral of `q`.  (A non-numeric, non-empty salary
  string would produce a `NaN` staff record in the source; `NaN` has no
  rational counterpart and no claim depends on it.)
-/

namespace Chai

/-- From src/unnamed/part_002 (`types.ts`): `enum TransactionType`. -/
inductive TransactionType where
  | INCOME
  | EXPENSE
  deriving DecidableEq

/-- From src/unnamed/part_002 (`types.ts`): `type PaymentMethod`. -/
inductive PaymentMethod where
  | CASH
  | GPAY
  | PHONEPE
  | OTHER
  deriving DecidableEq

/-- From src/unnamed/part_002 (`types.ts`): `interface Transaction`.
`date` is the timestamp in minutes (ISO string in the source); the
optional `notes` field is a plain string (`""` for absent); `staffId`
keeps the numeric form of the staff id. -/
structure Transaction where
  id : String
  date : Int
  amount : ℚ
  category : String
  type : TransactionType
  paymentMethod : PaymentMethod
  notes : String
  staffId : Option Int
  deriving DecidableEq

/-- From src/unnamed/part_002 (`types.ts`): `interface StaffMember`. -/
structure StaffMember where
  id : Int
  name : String
  phone : String
  address : String
  aadhaar : String
  weeklyBasePay : ℚ
  totalHeldBalance : ℚ
  joinedDate : Int
  deriving DecidableEq

/-- From src/components/StaffManager.tsx lines 22-42, `handleAddStaff`:
rejects the form iff `!newStaff.name || !newStaff.pay || !newStaff.phone`
(i.e. one of the three fields is empty); otherwise creates the staff
record with `weeklyBasePay = Number(newStaff.pay)`, `totalHeldBalance = 0`
and `joinedDate = now`.  `pay = none` models the empty salary field. -/
def handleAddStaff (name phone address aadhaar : String) (pay : Option ℚ)
    (now : Int) : Option StaffMember :=
  if name = "" ∨ pay = none ∨ phone = "" then none
  else
    some { id := now, name := name, phone := phone, address := address,
           aadhaar := aadhaar, weeklyBasePay := pay.getD 0,
           totalHeldBalance := 0, joinedDate := now }

/-- From src/components/StaffManager.tsx lines 44-66, `processWeeklyPay`:
pays out `weeklyBasePay * 0.40` now as one `EXPENSE` transaction and adds
`weeklyBasePay * 0.60` to the held balance.  The returned pair is the
transaction handed to `onAddTransaction` and the staff record handed to
`onUpdateStaff`. -/
def processWeeklyPay (s : StaffMember) (now : Int) :
    Transaction × StaffMember :=
  let weeklyTotal := s.weeklyBasePay
  let paidNow := weeklyTotal * (0.40 : ℚ)
  let heldAmount := weeklyTotal * (0.60 : ℚ)
  ({ id := "pay-" ++ toString now ++ "-" ++ toString s.id,
     date := now,
     amount := paidNow,
     category := "Staff - Weekly",
     type := TransactionType.EXPENSE,
     paymentMethod := PaymentMethod.CASH,
     notes := "Weekly 40% pay for " ++ s.name ++ ". Held: ₹" ++
       toString heldAmount,
     staffId := some s.id },
   { s with totalHeldBalance := s.totalHeldBalance + heldAmount })

/-- From src/components/StaffManager.tsx lines 68-90, `settleMonthlyHold`:
returns early (`none`, a NoOp) when `totalHeldBalance <= 0`; otherwise
emits one `EXPENSE` transaction for the full held balance and resets the
balance to `0`. -/
def settleMonthlyHold (s : StaffMember) (now : Int) :
    Option (Transaction × StaffMember) :=
  if s.totalHeldBalance ≤ 0 then none
  else
    let amountToPay := s.totalHeldBalance
    some ({ id := "settle-" ++ toString now ++ "-" ++ toString s.id,
            date := now,
            amount := amountToPay,
            category := "Staff - Month End",
            type := TransactionType.EXPENSE,
            paymentMethod := PaymentMethod.CASH,
            notes := "Month-end settlement (held 60%) for " ++ s.name,
            staffId := some s.id },
          { s with totalHeldBalance := 0 })

/-- From src/components/StaffManager.tsx lines 302-324 (`TransactionForm`'s
`handleSubmit`): returns without adding when
`!amount || isNaN(Number(amount))` (here: `amount = none`); otherwise
builds the transaction, keeping id/date/staffId from the transaction
being edited, or assigning `Date.now()` data for a fresh entry. -/
def handleSubmit (amount : Option ℚ) (category : String)
    (ty : TransactionType) (paymentMethod : PaymentMethod) (notes : String)
    (editingTransaction : Option Transaction) (now : Int) :
    Option Transaction :=
  match amount with
  | none => none
  | some a =>
    some { id := match editingTransaction with
                 | some e => e.id
                 | none => toString now,
           date := match editingTransaction with
                   | some e => e.date
                   | none => now,
           amount := a,
           category := category,
           type := ty,
           paymentMethod := paymentMethod,
           notes := notes,
           staffId := editingTransaction.bind (fun e => e.staffId) }

/-- From src/unnamed/part_000 lines 49-56 (`App`'s `addTransaction`):
in editing mode replaces every stored record whose id matches, otherwise
prepends the new record. -/
def addTransaction (editingTransaction : Option Transaction)
    (t : Transaction) (prev : List Transaction) : List Transaction :=
  match editingTransaction with
  | some _ => prev.map (fun item => if item.id = t.id then t else item)
  | none => t :: prev

/-- The editing branch of `addTransaction` (src/unnamed/part_000 line 51),
the source's realisation of the specification's `update(transaction)`. -/
def updateTransaction (prev : List Transaction) (t : Transaction) :
    List Transaction :=
  prev.map (fun item => if item.id = t.id then t else item)

/-- Accumulator of the `totals` reduction (src/unnamed/part_000
lines 87-93). -/
structure Totals where
  income : ℚ
  expenses : ℚ
  deriving DecidableEq

/-- From src/unnamed/part_000 lines 87-93: the `totals` reduction —
`INCOME` amounts accumulate into `income`, every other transaction's
amount into `expenses`. -/
def totals (transactions : List Transaction) : Totals :=
  transactions.foldl
    (fun acc t =>
      if t.type = TransactionType.INCOME then
        { acc with income := acc.income + t.amount }
      else
        { acc with expenses := acc.expenses + t.amount })
    { income := 0, expenses := 0 }

/-- From src/unnamed/part_000 line 95: `profit = totals.income -
totals.expenses`. -/
def profit (transactions : List Transaction) : ℚ :=
  (totals transactions).income - (totals transactions).expenses

/-- Sum of the amounts of a list of transactions (spec-side helper used
to state aggregation claims). -/
def sumAmounts (l : List Transaction) : ℚ :=
  (l.map (fun t => t.amount)).sum

/-- UTC calendar day of a timestamp: the date part of
`Date.toISOString()`, i.e. the floor of minutes / 1440. -/
def utcDay (ts : Int) : Int := ts / 1440

/-- Device-local calendar day for a fixed UTC offset `off` (in minutes).
The source never computes this; it is the "local zone" calendar day the
specification speaks about. -/
def localDay (off ts : Int) : Int := (ts + off) / 1440

/-- One point of the daily trend chart (src/unnamed/part_000 lines
113-120).  The source labels the point with a `MM/DD` string derived
from the ISO day; the embedding keeps the day number itself. -/
structure ChartPoint where
  day : Int
  income : ℚ
  expense : ℚ
  deriving DecidableEq

/-- From src/unnamed/part_000 lines 108-112: the seven ISO calendar days
obtained from `new Date()` shifted back `i` days, oldest first after
`reverse()`. -/
def last7Days (now : Int) : List Int :=
  ((List.range 7).map (fun i => utcDay (now - (i : Int) * 1440))).reverse

/-- From src/unnamed/part_000 lines 107-121, `dailyChartData`: for each
of the last seven days, filter the transactions whose ISO date string
starts with that day (UTC-day equality) and total the `INCOME` and
`EXPENSE` amounts separately. -/
def dailyChartData (now : Int) (transactions : List Transaction) :
    List ChartPoint :=
  (last7Days now).map (fun d =>
    let dayT := transactions.filter (fun t => utcDay t.date = d)
    { day := d,
      income := (dayT.filter (fun t => t.type = TransactionType.INCOME)).foldl
        (fun sum t => sum + t.amount) 0,
      expense := (dayT.filter (fun t => t.type = TransactionType.EXPENSE)).foldl
        (fun sum t => sum + t.amount) 0 })

/-- The staff-tab state of the application (src/unnamed/part_000 lines
19-20): the staff collection and the transaction ledger. -/
structure AppState where
  staff : List StaffMember
  transactions : List Transaction
  deriving DecidableEq

/-- The three staff-collection operations reachable from the UI
(StaffManager.tsx): submitting the registration form, and the per-row
weekly-pay and month-end-settle buttons.  A button click addresses the
rendered row, i.e. a position in the staff list. -/
inductive LedgerEvent where
  | register (name phone address aadhaar : String) (pay : Option ℚ) (now : Int)
  | weeklyPay (idx : Nat) (now : Int)
  | settle (idx : Nat) (now : Int)

/-- From src/unnamed/part_000 lines 75-77 (`updateStaff`): replace every
staff record whose id matches the updated one. -/
def updateStaff (l : List StaffMember) (updated : StaffMember) :
    List StaffMember :=
  l.map (fun s => if s.id = updated.id then updated else s)

/-- One UI action on the staff tab: `handleAddStaff` feeding `addStaff`
(src/unnamed/part_000 lines 71-73, append), or a row button running
`processWeeklyPay` / `settleMonthlyHold`, each of which hands its
transaction to `addTransaction` (non-editing: prepend) and its staff
record to `updateStaff`. -/
def applyEvent (st : AppState) (e : LedgerEvent) : AppState :=
  match e with
  | .register n p a ad pay now =>
    match handleAddStaff n p a ad pay now with
    | none => st
    | some s => { st with staff := st.staff ++ [s] }
  | .weeklyPay idx now =>
    match st.staff[idx]? with
    | none => st
    | some s =>
      let r := processWeeklyPay s now
      { staff := updateStaff st.staff r.2,
        transactions := r.1 :: st.transactions }
  | .settle idx now =>
    match st.staff[idx]? with
    | none => st
    | some s =>
      match settleMonthlyHold s now with
      | none => st
      | some r =>
        { staff := updateStaff st.staff r.2,
          transactions := r.1 :: st.transactions }

/-- States reachable from the initial empty collections by staff-tab
actions. -/
def execEvents (tr : List LedgerEvent) : AppState :=
  tr.foldl applyEvent { staff := [], transactions := [] }

/-- Registration timestamps occurring in a trace (each becomes the id of
the staff record it creates, when it succeeds). -/
def regTimes : List LedgerEvent → List Int
  | [] => []
  | .register _ _ _ _ _ now :: es => now :: regTimes es
  | .weeklyPay _ _ :: es => regTimes es
  | .settle _ _ :: es => regTimes es

/-- The base pay a registration event carries (`0` for other events). -/
def regPay : LedgerEvent → ℚ
  | .register _ _ _ _ pay _ => pay.getD 0
  | _ => 0

/-- Sum of the held fractions recorded by the weekly-pay transactions of
staff `i`: each `Staff - Weekly` transaction carries `0.40 · basePay`, so
its held fraction `0.60 · basePay` is `3/2` times its amount. -/
def heldSum (i : Int) (txs : List Transaction) : ℚ :=
  (txs.map (fun t =>
    if t.staffId = some i ∧ t.category = "Staff - Weekly" then
      (3 / 2 : ℚ) * t.amount
    else 0)).sum

/-- Sum of the settlement payouts of staff `i`: the amounts of its
`Staff - Month End` transactions. -/
def settleSum (i : Int) (txs : List Transaction) : ℚ :=
  (txs.map (fun t =>
    if t.staffId = some i ∧ t.category = "Staff - Month End" then t.amount
    else 0)).sum

/-- Escrow accounting invariant: each staff member's held balance is the
sum of the held fractions of its weekly-pay operations minus the sum of
its settlements. -/
def EscrowInv (st : AppState) : Prop :=
  ∀ s ∈ st.staff,
    s.totalHeldBalance =
      heldSum s.id st.transactions - settleSum s.id st.transactions

/-- Every staff-tagged transaction points at a staff record that is still
present (staff records are never deleted). -/
def StaffLinked (st : AppState) : Prop :=
  ∀ t ∈ st.transactions, ∀ i : Int, t.staffId = some i →
    ∃ s ∈ st.staff, s.id = i

/-- C1: `processWeeklyPay` emits one `EXPENSE` transaction of
`0.40 · weeklyBasePay` (category "Staff - Weekly", method `CASH`,
`staffId` set) and raises the held balance by exactly
`0.60 · weeklyBasePay` of the fixed base pay — with base pay `1000` the
transaction amount is `400` and the balance rises by `600`. -/
theorem processWeeklyPay_spec (s : StaffMember) (now : Int) :
    (processWeeklyPay s now).1.amount = s.weeklyBasePay * (0.40 : ℚ) ∧
    (processWeeklyPay s now).1.category = "Staff - Weekly" ∧
    (processWeeklyPay s now).1.type = TransactionType.EXPENSE ∧
    (processWeeklyPay s now).1.paymentMethod = PaymentMethod.CASH ∧
    (processWeeklyPay s now).1.staffId = some s.id ∧
    (processWeeklyPay s now).2.totalHeldBalance
      = s.totalHeldBalance + s.weeklyBasePay * (0.60 : ℚ) ∧
    (processWeeklyPay s now).2.weeklyBasePay = s.weeklyBasePay ∧
    (s.weeklyBasePay = 1000 →
      (processWeeklyPay s now).1.amount = 400 ∧
      (processWeeklyPay s now).2.totalHeldBalance
        = s.totalHeldBalance + 600) := by
  refine ⟨rfl, rfl, rfl, rfl, rfl, rfl, rfl, fun h => ?_⟩
  simp only [processWeeklyPay, h]
  norm_num

/-- Witness for C1 at base pay `1000`. -/
theorem processWeeklyPay_spec_witness :
    (processWeeklyPay ⟨1, "a", "9", "h", "aa", 1000, 0, 0⟩ 5).1.amount = 400 ∧
    (processWeeklyPay ⟨1, "a", "9", "h", "aa", 1000, 0, 0⟩ 5).2.totalHeldBalance
      = 0 + 600 :=
  (processWeeklyPay_spec ⟨1, "a", "9", "h", "aa", 1000, 0, 0⟩ 5).2.2.2.2.2.2.2 rfl

/-- C2: with a positive held balance, `settleMonthlyHold` emits one
`EXPENSE` transaction for the full balance (category "Staff - Month
End") and resets the balance to `0`; with a zero balance it is a NoOp
(`none`), and immediately repeating a successful settlement is a NoOp. -/
theorem settleMonthlyHold_spec (s : StaffMember) (now now' : Int) :
    (0 < s.totalHeldBalance →
      (settleMonthlyHold s now).map
          (fun r => (r.1.amount, r.1.category, r.1.type, r.2.totalHeldBalance))
        = some (s.totalHeldBalance, "Staff - Month End",
            TransactionType.EXPENSE, 0)) ∧
    (s.totalHeldBalance = 0 → settleMonthlyHold s now = none) ∧
    (∀ r, settleMonthlyHold s now = some r →
      settleMonthlyHold r.2 now' = none) := by
  refine ⟨fun h => ?_, fun h => ?_, fun r hr => ?_⟩
  · simp only [settleMonthlyHold]
    rw [if_neg (not_le.mpr h)]
    rfl
  · simp only [settleMonthlyHold]
    rw [if_pos (le_of_eq h)]
  · simp only [settleMonthlyHold] at hr
    by_cases hb : s.totalHeldBalance ≤ 0
    · rw [if_pos hb] at hr
      exact absurd hr (by simp)
    · rw [if_neg hb] at hr
      have hre := Option.some.inj hr
      subst hre
      simp [settleMonthlyHold]

/-- Witness for C2 at held balance `1800`. -/
theorem settleMonthlyHold_spec_witness :
    (settleMonthlyHold ⟨1, "a", "9", "h", "aa", 100, 1800, 0⟩ 7).map
        (fun r => (r.1.amount, r.1.category, r.1.type, r.2.totalHeldBalance))
      = some (1800, "Staff - Month End", TransactionType.EXPENSE, 0) ∧
    settleMonthlyHold ⟨1, "a", "9", "h", "aa", 100, 0, 0⟩ 7 = none ∧
    settleMonthlyHold
      ((⟨"settle-7-1", 7, 1800, "Staff - Month End", TransactionType.EXPENSE,
          PaymentMethod.CASH, "Month-end settlement (held 60%) for a", some 1⟩,
        ⟨1, "a", "9", "h", "aa", 100, 0, 0⟩) : Transaction × StaffMember).2 8
      = none := by
  have h1 := (settleMonthlyHold_spec ⟨1, "a", "9", "h", "aa", 100, 1800, 0⟩ 7 8).1
    (by norm_num)
  have h2 := (settleMonthlyHold_spec ⟨1, "a", "9", "h", "aa", 100, 0, 0⟩ 7 8).2.1 rfl
  have h3 := (settleMonthlyHold_spec ⟨1, "a", "9", "h", "aa", 100, 1800, 0⟩ 7 8).2.2
    (⟨"settle-7-1", 7, 1800, "Staff - Month End", TransactionType.EXPENSE,
        PaymentMethod.CASH, "Month-end settlement (held 60%) for a", some 1⟩,
      ⟨1, "a", "9", "h", "aa", 100, 0, 0⟩)
    (by decide)
  exact ⟨h1, h2, h3⟩

/-- Helper: the `totals` fold over any accumulator splits into the two
filtered amount sums. -/
theorem totals_foldl_eq (txs : List Transaction) (acc : Totals) :
    txs.foldl
        (fun acc t =>
          if t.type = TransactionType.INCOME then
            { acc with income := acc.income + t.amount }
          else
            { acc with expenses := acc.expenses + t.amount })
        acc
      = { income := acc.income +
            sumAmounts (txs.filter (fun t => t.type = TransactionType.INCOME)),
          expenses := acc.expenses +
            sumAmounts (txs.filter (fun t => t.type = TransactionType.EXPENSE)) } := by
  induction txs generalizing acc with
  | nil => simp [sumAmounts]
  | cons t ts ih =>
    cases h : t.type <;>
      simp [List.foldl_cons, ih, List.filter_cons, h, sumAmounts, add_assoc]

/-- Helper: the amounts of the `INCOME` and `EXPENSE` sublists sum to the
amounts of the whole list. -/
theorem sumAmounts_type_partition (txs : List Transaction) :
    sumAmounts (txs.filter (fun t => t.type = TransactionType.INCOME))
      + sumAmounts (txs.filter (fun t => t.type = TransactionType.EXPENSE))
      = sumAmounts txs := by
  induction txs with
  | nil => simp [sumAmounts]
  | cons t ts ih =>
    cases h : t.type <;>
      · simp [List.filter_cons, h, sumAmounts] at ih ⊢
        rw [← ih]
        ring

/-- C5: `totals` computes the all-time `INCOME` and `EXPENSE` amount
sums with no date filtering, `profit` is their difference, and the empty
ledger yields zeros. -/
theorem totals_spec (txs : List Transaction) :
    (totals txs).income
        = sumAmounts (txs.filter (fun t => t.type = TransactionType.INCOME)) ∧
    (totals txs).expenses
        = sumAmounts (txs.filter (fun t => t.type = TransactionType.EXPENSE)) ∧
    profit txs = (totals txs).income - (totals txs).expenses ∧
    totals [] = { income := 0, expenses := 0 } := by
  refine ⟨?_, ?_, rfl, rfl⟩ <;> simp [totals, totals_foldl_eq]

/-- C10: the `totals` reduction drops no transaction — every record goes
to exactly one of the two buckets, so income plus expenses is the sum of
all amounts. -/
theorem totals_partition (txs : List Transaction) :
    (totals txs).income + (totals txs).expenses = sumAmounts txs := by
  simp only [totals, totals_foldl_eq, zero_add]
  exact sumAmounts_type_partition txs

/-- C6 counterexample: a negative amount is accepted by the form guard
(`!amount || isNaN(Number(amount))` does not reject `-5`) and the
record is added, so `add` does not fail on negative amounts. -/
theorem addTransaction_negative_accepted :
    (handleSubmit (some (-5)) "Supplies" TransactionType.EXPENSE
        PaymentMethod.CASH "" none 7).map (fun t => t.amount) = some (-5) ∧
    (handleSubmit (some (-5)) "Supplies" TransactionType.EXPENSE
        PaymentMethod.CASH "" none 7).map
        (fun t => (addTransaction none t []).length) = some 1 ∧
    ((-5 : ℚ) < 0) :=
  ⟨rfl, rfl, by norm_num⟩

/-- C6 amended: the submission fails (returns without touching the
ledger) exactly when the amount field is empty or non-numeric; every
parsed numeric amount — non-negative or not — is accepted and prepended. -/
theorem addTransaction_validation_amended (a : ℚ) (category : String)
    (ty : TransactionType) (pm : PaymentMethod) (notes : String)
    (ed : Option Transaction) (now : Int) (prev : List Transaction) :
    handleSubmit none category ty pm notes ed now = none ∧
    (handleSubmit (some a) category ty pm notes ed now).map
        (fun t => t.amount) = some a ∧
    (handleSubmit (some a) category ty pm notes none now).map
        (fun t => (addTransaction none t prev).length)
      = some (prev.length + 1) := by
  refine ⟨rfl, rfl, ?_⟩
  simp [handleSubmit, addTransaction]

/-- Helper: replacing by an id that occurs nowhere leaves the list
unchanged. -/
theorem map_update_id (l : List Transaction) (t : Transaction)
    (h : ∀ item ∈ l, item.id ≠ t.id) :
    l.map (fun item => if item.id = t.id then t else item) = l := by
  induction l with
  | nil => rfl
  | cons x xs ih =>
    simp only [List.map_cons]
    rw [if_neg (h x (List.mem_cons_self x xs)),
      ih (fun a ha => h a (List.mem_cons_of_mem x ha))]

/-- C7 counterexample: updating with an id absent from the ledger leaves
the ledger unchanged and signals nothing — the code has no
`NotFoundError` path. -/
theorem updateTransaction_missing_id_silent :
    updateTransaction
        [⟨"1", 0, 5, "Chai", TransactionType.INCOME, PaymentMethod.CASH, "", none⟩]
        ⟨"2", 0, 7, "Milk", TransactionType.EXPENSE, PaymentMethod.CASH, "", none⟩
      = [⟨"1", 0, 5, "Chai", TransactionType.INCOME, PaymentMethod.CASH, "", none⟩] ∧
    (⟨"2", 0, 7, "Milk", TransactionType.EXPENSE, PaymentMethod.CASH, "", none⟩
        : Transaction).id
      ∉ [⟨"1", 0, 5, "Chai", TransactionType.INCOME, PaymentMethod.CASH, "", none⟩].map
          (fun t : Transaction => t.id) := by
  constructor
  · simp [updateTransaction]
  · decide

/-- C7 amended: `update` replaces exactly the records whose id matches,
leaves every other position unchanged and preserves length; when no
record carries the id it returns the ledger unchanged, with no error. -/
theorem updateTransaction_amended (txs : List Transaction) (t : Transaction) :
    (updateTransaction txs t).length = txs.length ∧
    (∀ i : Nat, (updateTransaction txs t)[i]?
      = (txs[i]?).map (fun item => if item.id = t.id then t else item)) ∧
    ((∀ item ∈ txs, item.id ≠ t.id) → updateTransaction txs t = txs) := by
  refine ⟨by simp [updateTransaction], fun i => by simp [updateTransaction],
    fun h => ?_⟩
  exact map_update_id txs t h

/-- Witness for C7 on a one-record ledger and a foreign id. -/
theorem updateTransaction_amended_witness :
    (updateTransaction
        [⟨"a", 0, 5, "Chai", TransactionType.INCOME, PaymentMethod.CASH, "", none⟩]
        ⟨"b", 0, 7, "Milk", TransactionType.EXPENSE, PaymentMethod.CASH, "", none⟩).length
      = [(⟨"a", 0, 5, "Chai", TransactionType.INCOME, PaymentMethod.CASH, "", none⟩
          : Transaction)].length ∧
    updateTransaction
        [⟨"a", 0, 5, "Chai", TransactionType.INCOME, PaymentMethod.CASH, "", none⟩]
        ⟨"b", 0, 7, "Milk", TransactionType.EXPENSE, PaymentMethod.CASH, "", none⟩
      = [⟨"a", 0, 5, "Chai", TransactionType.INCOME, PaymentMethod.CASH, "", none⟩] := by
  have h := updateTransaction_amended
    [⟨"a", 0, 5, "Chai", TransactionType.INCOME, PaymentMethod.CASH, "", none⟩]
    ⟨"b", 0, 7, "Milk", TransactionType.EXPENSE, PaymentMethod.CASH, "", none⟩
  exact ⟨h.1, h.2.2 (by decide)⟩

/-- C8 counterexample: a registration whose salary field holds `0` (a
non-empty numeric string in the source) succeeds, so non-positive base
pay is not rejected. -/
theorem handleAddStaff_zero_pay_accepted :
    (handleAddStaff "a" "9" "h" "aa" (some 0) 5).map
        (fun s => s.weeklyBasePay) = some 0 ∧
    ¬ (0 : ℚ) > 0 :=
  ⟨by simp [handleAddStaff], by norm_num⟩

/-- C8 amended: registration fails exactly when the name, salary or
phone field is empty (a non-positive numeric salary is accepted); every
successful registration starts with a zero held balance and
`joinedDate = now`. -/
theorem handleAddStaff_amended (n p a ad : String) (pay : Option ℚ)
    (now : Int) :
    (handleAddStaff n p a ad pay now = none ↔
      (n = "" ∨ pay = none ∨ p = "")) ∧
    (∀ s, handleAddStaff n p a ad pay now = some s →
      s.totalHeldBalance = 0 ∧ s.joinedDate = now ∧
      s.weeklyBasePay = pay.getD 0 ∧ s.id = now) := by
  constructor
  · constructor
    · intro h
      by_contra hc
      simp only [handleAddStaff] at h
      rw [if_neg hc] at h
      exact absurd h (by simp)
    · intro h
      simp only [handleAddStaff]
      rw [if_pos h]
  · intro s hs
    simp only [handleAddStaff] at hs
    by_cases hc : (n = "" ∨ pay = none ∨ p = "")
    · rw [if_pos hc] at hs
      exact absurd hs (by simp)
    · rw [if_neg hc] at hs
      have he := Option.some.inj hs
      subst he
      exact ⟨rfl, rfl, rfl, rfl⟩

/-- Witness for C8: an empty name is rejected; a filled form yields the
expected fresh record. -/
theorem handleAddStaff_amended_witness :
    handleAddStaff "" "9" "h" "aa" (some 100) 5 = none ∧
    ((⟨5, "a", "9", "h", "aa", 100, 0, 5⟩ : StaffMember).totalHeldBalance = 0 ∧
      (⟨5, "a", "9", "h", "aa", 100, 0, 5⟩ : StaffMember).joinedDate = 5 ∧
      (⟨5, "a", "9", "h", "aa", 100, 0, 5⟩ : StaffMember).weeklyBasePay
        = (some (100 : ℚ)).getD 0 ∧
      (⟨5, "a", "9", "h", "aa", 100, 0, 5⟩ : StaffMember).id = 5) := by
  refine ⟨(handleAddStaff_amended "" "9" "h" "aa" (some 100) 5).1.mpr
    (Or.inl rfl), ?_⟩
  exact (handleAddStaff_amended "a" "9" "h" "aa" (some 100) 5).2
    ⟨5, "a", "9", "h", "aa", 100, 0, 5⟩ (by decide)

/-- C9: a valid non-editing submission prepends the freshly built record:
the ledger grows by exactly one, the new record is in front, all input
fields round-trip exactly, `staffId` is unset, and the creation date is
`now` — while in editing mode the original date is preserved instead. -/
theorem addTransaction_roundtrip (a : ℚ) (category : String)
    (ty : TransactionType) (pm : PaymentMethod) (notes : String)
    (now : Int) (prev : List Transaction) :
    ∀ t, handleSubmit (some a) category ty pm notes none now = some t →
      addTransaction none t prev = t :: prev ∧
      (addTransaction none t prev).length = prev.length + 1 ∧
      (addTransaction none t prev).head? = some t ∧
      t.amount = a ∧ t.category = category ∧ t.type = ty ∧
      t.paymentMethod = pm ∧ t.notes = notes ∧ t.staffId = none ∧
      t.date = now ∧
      (∀ e : Transaction,
        (handleSubmit (some a) category ty pm notes (some e) now).map
          (fun x => x.date) = some e.date) := by
  intro t ht
  simp only [handleSubmit] at ht
  have he := Option.some.inj ht
  subst he
  exact ⟨rfl, rfl, rfl, rfl, rfl, rfl, rfl, rfl, rfl, rfl, fun e => rfl⟩

/-- Witness for C9 with a concrete fresh entry. -/
theorem addTransaction_roundtrip_witness :
    addTransaction none
        ⟨"7", 7, 5, "Tea", TransactionType.INCOME, PaymentMethod.GPAY, "n", none⟩ []
      = [⟨"7", 7, 5, "Tea", TransactionType.INCOME, PaymentMethod.GPAY, "n", none⟩] ∧
    (addTransaction none
        ⟨"7", 7, 5, "Tea", TransactionType.INCOME, PaymentMethod.GPAY, "n", none⟩ []).length
      = 1 ∧
    (⟨"7", 7, 5, "Tea", TransactionType.INCOME, PaymentMethod.GPAY, "n", none⟩
        : Transaction).amount = 5 ∧
    (handleSubmit (some 5) "Tea" TransactionType.INCOME PaymentMethod.GPAY "n"
        (some ⟨"z", 3, 9, "Old", TransactionType.EXPENSE, PaymentMethod.CASH, "", none⟩)
        7).map (fun x => x.date)
      = some (⟨"z", 3, 9, "Old", TransactionType.EXPENSE, PaymentMethod.CASH, "", none⟩
          : Transaction).date := by
  have h := addTransaction_roundtrip 5 "Tea" TransactionType.INCOME
    PaymentMethod.GPAY "n" 7 []
    ⟨"7", 7, 5, "Tea", TransactionType.INCOME, PaymentMethod.GPAY, "n", none⟩
    (by decide)
  exact ⟨h.1, h.2.1, h.2.2.2.1, h.2.2.2.2.2.2.2.2.2.2
    ⟨"z", 3, 9, "Old", TransactionType.EXPENSE, PaymentMethod.CASH, "", none⟩⟩

/-- Helper: shifting a timestamp back whole days shifts its UTC calendar
day by the same count. -/
theorem utcDay_sub_days (now : Int) (i : Nat) :
    utcDay (now - (i : Int) * 1440) = utcDay now - i := by
  have h : now - (i : Int) * 1440 = now + (-(i : Int)) * 1440 := by ring
  rw [utcDay, utcDay, h,
    Int.add_mul_ediv_right _ _ (by norm_num : (1440 : Int) ≠ 0)]
  ring

/-- Helper: the seven chart days are the seven consecutive UTC days
ending at today's, oldest first. -/
theorem last7Days_eq (now : Int) :
    last7Days now =
      [utcDay now - 6, utcDay now - 5, utcDay now - 4, utcDay now - 3,
       utcDay now - 2, utcDay now - 1, utcDay now] := by
  have h : ∀ i : Nat, utcDay (now - (i : Int) * 1440) = utcDay now - i :=
    utcDay_sub_days now
  simp only [last7Days, show List.range 7 = [0, 1, 2, 3, 4, 5, 6] from rfl,
    List.map_cons, List.map_nil, h, List.reverse_cons, List.reverse_nil,
    List.nil_append, List.cons_append]
  norm_num
  exact ⟨by simpa using h 6, by simpa using h 5, by simpa using h 4,
    by simpa using h 3, by simpa using h 2, by simpa using h 1⟩

/-- Helper: folding amounts over a list starting from `a` adds the
amount sum. -/
theorem foldl_amount (l : List Transaction) (a : ℚ) :
    l.foldl (fun sum t => sum + t.amount) a = a + sumAmounts l := by
  induction l generalizing a with
  | nil => simp [sumAmounts]
  | cons t ts ih =>
    rw [List.foldl_cons, ih]
    simp only [sumAmounts, List.map_cons, List.sum_cons]
    ring

/-- Helper: a chart bucket's per-type total is the amount sum of the
transactions of that type on that UTC day. -/
theorem chart_bucket_sum (ty : TransactionType) (d : Int)
    (txs : List Transaction) :
    ((txs.filter (fun t => utcDay t.date = d)).filter
        (fun t => t.type = ty)).foldl (fun sum t => sum + t.amount) 0
      = sumAmounts (txs.filter (fun t => t.type = ty ∧ utcDay t.date = d)) := by
  rw [foldl_amount, zero_add]
  have h : (txs.filter (fun t => utcDay t.date = d)).filter
        (fun t => t.type = ty)
      = txs.filter (fun t => t.type = ty ∧ utcDay t.date = d) := by
    induction txs with
    | nil => rfl
    | cons t ts ih =>
      by_cases h1 : utcDay t.date = d <;> by_cases h2 : t.type = ty <;>
        simp [List.filter_cons, h1, h2, ih]
  rw [h]

/-- C4 amended: the daily trend has exactly 7 points, one per UTC
calendar day ending at today's UTC day, oldest first; a transaction is
counted in a point iff its date's UTC calendar day (the ISO-string date
prefix) equals the point's day, and empty days contribute zero sums
rather than being omitted. -/
theorem dailyChartData_utc_spec (now : Int) (txs : List Transaction) :
    (dailyChartData now txs).length = 7 ∧
    (dailyChartData now txs).map (fun p => p.day) =
      [utcDay now - 6, utcDay now - 5, utcDay now - 4, utcDay now - 3,
       utcDay now - 2, utcDay now - 1, utcDay now] ∧
    ∀ p ∈ dailyChartData now txs,
      p.income = sumAmounts (txs.filter (fun t =>
        t.type = TransactionType.INCOME ∧ utcDay t.date = p.day)) ∧
      p.expense = sumAmounts (txs.filter (fun t =>
        t.type = TransactionType.EXPENSE ∧ utcDay t.date = p.day)) := by
  refine ⟨?_, ?_, ?_⟩
  · rw [dailyChartData, List.length_map, last7Days_eq]
    rfl
  · rw [dailyChartData, List.map_map, last7Days_eq]
    rfl
  · intro p hp
    rw [dailyChartData] at hp
    obtain ⟨d, hd, rfl⟩ := List.mem_map.mp hp
    exact ⟨chart_bucket_sum TransactionType.INCOME d txs,
      chart_bucket_sum TransactionType.EXPENSE d txs⟩

/-- Witness for C4 on a one-transaction ledger dated today. -/
theorem dailyChartData_utc_spec_witness :
    (dailyChartData 144000
        [⟨"i", 144000, 500, "Sales", TransactionType.INCOME,
          PaymentMethod.CASH, "", none⟩]).length = 7 ∧
    (⟨100, 500, 0⟩ : ChartPoint).income
      = sumAmounts (([⟨"i", 144000, 500, "Sales", TransactionType.INCOME,
          PaymentMethod.CASH, "", none⟩] : List Transaction).filter
          (fun t => t.type = TransactionType.INCOME ∧
            utcDay t.date = (⟨100, 500, 0⟩ : ChartPoint).day)) := by
  have h := dailyChartData_utc_spec 144000
    [⟨"i", 144000, 500, "Sales", TransactionType.INCOME,
      PaymentMethod.CASH, "", none⟩]
  refine ⟨h.1, (h.2.2 ⟨100, 500, 0⟩ ?_).1⟩
  simp [dailyChartData, last7Days_eq, utcDay]

/-- Helper: `heldSum` over a cons. -/
theorem heldSum_cons (i : Int) (t : Transaction) (txs : List Transaction) :
    heldSum i (t :: txs)
      = (if t.staffId = some i ∧ t.category = "Staff - Weekly" then
          (3 / 2 : ℚ) * t.amount else 0) + heldSum i txs := by
  simp [heldSum]

/-- Helper: `settleSum` over a cons. -/
theorem settleSum_cons (i : Int) (t : Transaction) (txs : List Transaction) :
    settleSum i (t :: txs)
      = (if t.staffId = some i ∧ t.category = "Staff - Month End" then
          t.amount else 0) + settleSum i txs := by
  simp [settleSum]

/-- Helper: a staff id tagged on no transaction has a zero held sum. -/
theorem heldSum_eq_zero (i : Int) (txs : List Transaction)
    (h : ∀ t ∈ txs, t.staffId ≠ some i) : heldSum i txs = 0 := by
  induction txs with
  | nil => rfl
  | cons t ts ih =>
    rw [heldSum_cons,
      if_neg (fun hc => h t (List.mem_cons_self t ts) hc.1),
      ih (fun a ha => h a (List.mem_cons_of_mem t ha)), zero_add]

/-- Helper: a staff id tagged on no transaction has a zero settle sum. -/
theorem settleSum_eq_zero (i : Int) (txs : List Transaction)
    (h : ∀ t ∈ txs, t.staffId ≠ some i) : settleSum i txs = 0 := by
  induction txs with
  | nil => rfl
  | cons t ts ih =>
    rw [settleSum_cons,
      if_neg (fun hc => h t (List.mem_cons_self t ts) hc.1),
      ih (fun a ha => h a (List.mem_cons_of_mem t ha)), zero_add]

/-- Helper: `updateStaff` keeps every staff id present (the replacement
carries the same id). -/
theorem updateStaff_preserves_id (l : List StaffMember) (u : StaffMember)
    (i : Int) (h : ∃ s ∈ l, s.id = i) :
    ∃ s' ∈ updateStaff l u, s'.id = i := by
  obtain ⟨x, hx, hxi⟩ := h
  by_cases hxy : x.id = u.id
  · exact ⟨u, List.mem_map.mpr ⟨x, hx, by simp [updateStaff, hxy]⟩,
      by rw [← hxy, hxi]⟩
  · exact ⟨x, List.mem_map.mpr ⟨x, hx, by simp [updateStaff, hxy]⟩, hxi⟩

/-- Helper: a successful registration yields the record built by
`handleAddStaff`. -/
theorem handleAddStaff_some (n p a ad : String) (pay : Option ℚ) (now : Int)
    (s₀ : StaffMember) (hreg : handleAddStaff n p a ad pay now = some s₀) :
    s₀.id = now ∧ s₀.totalHeldBalance = 0 ∧ s₀.weeklyBasePay = pay.getD 0 := by
  simp only [handleAddStaff] at hreg
  by_cases hc : (n = "" ∨ pay = none ∨ p = "")
  · rw [if_pos hc] at hreg
    exact absurd hreg (by simp)
  · rw [if_neg hc] at hreg
    have he := Option.some.inj hreg
    subst he
    exact ⟨rfl, rfl, rfl⟩

/-- Helper: conversion between the paid-now amount and the held
fraction. -/
theorem held_of_paid (p : ℚ) :
    (3 / 2 : ℚ) * (p * (0.40 : ℚ)) = p * (0.60 : ℚ) := by
  norm_num
  ring

/-- Helper: a registration event preserves the escrow accounting and the
staff-link property, provided the new id is fresh. -/
theorem register_preserves (st : AppState) (n p a ad : String)
    (pay : Option ℚ) (now : Int)
    (hInv : EscrowInv st) (hLink : StaffLinked st)
    (hFresh : ∀ s ∈ st.staff, s.id ≠ now) :
    EscrowInv (applyEvent st (.register n p a ad pay now)) ∧
    StaffLinked (applyEvent st (.register n p a ad pay now)) := by
  cases hreg : handleAddStaff n p a ad pay now with
  | none =>
    constructor
    · intro s hs
      simp only [applyEvent, hreg] at hs ⊢
      exact hInv s hs
    · intro t ht i hti
      simp only [applyEvent, hreg] at ht ⊢
      exact hLink t ht i hti
  | some s₀ =>
    obtain ⟨hid, hbal, _⟩ := handleAddStaff_some n p a ad pay now s₀ hreg
    constructor
    · intro s hs
      simp only [applyEvent, hreg] at hs ⊢
      rcases List.mem_append.mp hs with hmem | hnew
      · exact hInv s hmem
      · have hs₀ : s = s₀ := by simpa using hnew
        subst hs₀
        have hnone : ∀ t ∈ st.transactions, t.staffId ≠ some s.id := by
          intro t ht hcon
          obtain ⟨x, hx, hxi⟩ := hLink t ht s.id hcon
          rw [hid] at hxi
          exact hFresh x hx hxi
        rw [hbal, heldSum_eq_zero _ _ hnone, settleSum_eq_zero _ _ hnone,
          sub_zero]
    · intro t ht i hti
      simp only [applyEvent, hreg] at ht ⊢
      obtain ⟨x, hx, hxi⟩ := hLink t ht i hti
      exact ⟨x, List.mem_append_left _ hx, hxi⟩

/-- Helper: a weekly-pay event preserves the escrow accounting and the
staff-link property. -/
theorem weeklyPay_preserves (st : AppState) (idx : Nat) (now : Int)
    (hInv : EscrowInv st) (hLink : StaffLinked st) :
    EscrowInv (applyEvent st (.weeklyPay idx now)) ∧
    StaffLinked (applyEvent st (.weeklyPay idx now)) := by
  cases hget : st.staff[idx]? with
  | none =>
    constructor
    · intro s hs
      simp only [applyEvent, hget] at hs ⊢
      exact hInv s hs
    · intro t ht i hti
      simp only [applyEvent, hget] at ht ⊢
      exact hLink t ht i hti
  | some s =>
    have hsmem : s ∈ st.staff := List.getElem?_mem hget
    constructor
    · intro x' hx'
      simp only [applyEvent, hget] at hx' ⊢
      obtain ⟨x, hx, hxeq⟩ := List.mem_map.mp hx'
      by_cases hid : x.id = (processWeeklyPay s now).2.id
      · rw [if_pos hid] at hxeq
        subst hxeq
        rw [heldSum_cons, settleSum_cons,
          if_pos (⟨rfl, rfl⟩ :
            (processWeeklyPay s now).1.staffId
                = some (processWeeklyPay s now).2.id ∧
              (processWeeklyPay s now).1.category = "Staff - Weekly"),
          if_neg (fun hc =>
            absurd hc.2 (by simp [processWeeklyPay]))]
        have hb := hInv s hsmem
        show s.totalHeldBalance + s.weeklyBasePay * (0.60 : ℚ)
          = (3 / 2 : ℚ) * (s.weeklyBasePay * (0.40 : ℚ)) +
              heldSum s.id st.transactions -
            (0 + settleSum s.id st.transactions)
        rw [hb, held_of_paid]
        ring
      · rw [if_neg hid] at hxeq
        subst hxeq
        have hidne : ¬((processWeeklyPay s now).1.staffId = some x.id ∧
            (processWeeklyPay s now).1.category = "Staff - Weekly") := by
          intro hc
          exact hid (by
            have : s.id = x.id := by simpa [processWeeklyPay] using hc.1
            simpa [processWeeklyPay] using this.symm)
        have hidne' : ¬((processWeeklyPay s now).1.staffId = some x.id ∧
            (processWeeklyPay s now).1.category = "Staff - Month End") := by
          intro hc
          exact absurd hc.2 (by simp [processWeeklyPay])
        rw [heldSum_cons, settleSum_cons, if_neg hidne, if_neg hidne',
          zero_add, zero_add]
        exact hInv x hx
    · intro t ht i hti
      simp only [applyEvent, hget] at ht ⊢
      rcases List.mem_cons.mp ht with heq | hmem
      · subst heq
        have hi : i = s.id := by simpa [processWeeklyPay] using hti.symm
        subst hi
        exact ⟨(processWeeklyPay s now).2,
          List.mem_map.mpr ⟨s, hsmem, by simp [processWeeklyPay]⟩, rfl⟩
      · exact updateStaff_preserves_id _ _ _ (hLink t hmem i hti)

/-- Helper: a successful settlement yields the record built by
`settleMonthlyHold`. -/
theorem settleMonthlyHold_some (s : StaffMember) (now : Int)
    (r : Transaction × StaffMember)
    (hset : settleMonthlyHold s now = some r) :
    r.1.staffId = some s.id ∧ r.1.category = "Staff - Month End" ∧
    r.1.amount = s.totalHeldBalance ∧ r.2.id = s.id ∧
    r.2.totalHeldBalance = 0 := by
  simp only [settleMonthlyHold] at hset
  by_cases hb : s.totalHeldBalance ≤ 0
  · rw [if_pos hb] at hset
    exact absurd hset (by simp)
  · rw [if_neg hb] at hset
    have he := Option.some.inj hset
    subst he
    exact ⟨rfl, rfl, rfl, rfl, rfl⟩

/-- Helper: a settlement event preserves the escrow accounting and the
staff-link property. -/
theorem settle_preserves (st : AppState) (idx : Nat) (now : Int)
    (hInv : EscrowInv st) (hLink : StaffLinked st) :
    EscrowInv (applyEvent st (.settle idx now)) ∧
    StaffLinked (applyEvent st (.settle idx now)) := by
  cases hget : st.staff[idx]? with
  | none =>
    constructor
    · intro s hs
      simp only [applyEvent, hget] at hs ⊢
      exact hInv s hs
    · intro t ht i hti
      simp only [applyEvent, hget] at ht ⊢
      exact hLink t ht i hti
  | some s =>
    have hsmem : s ∈ st.staff := List.getElem?_mem hget
    cases hset : settleMonthlyHold s now with
    | none =>
      constructor
      · intro x hx
        simp only [applyEvent, hget, hset] at hx ⊢
        exact hInv x hx
      · intro t ht i hti
        simp only [applyEvent, hget, hset] at ht ⊢
        exact hLink t ht i hti
    | some r =>
      obtain ⟨hr1, hr2, hr3, hr4, hr5⟩ :=
        settleMonthlyHold_some s now r hset
      constructor
      · intro x' hx'
        simp only [applyEvent, hget, hset] at hx' ⊢
        obtain ⟨x, hx, hxeq⟩ := List.mem_map.mp hx'
        by_cases hid : x.id = r.2.id
        · rw [if_pos hid] at hxeq
          subst hxeq
          rw [heldSum_cons, settleSum_cons,
            if_neg (fun hc => absurd hc.2 (by rw [hr2]; decide)),
            if_pos (⟨by rw [hr1, hr4], hr2⟩ :
              r.1.staffId = some r.2.id ∧
                r.1.category = "Staff - Month End"),
            zero_add]
          have hb := hInv s hsmem
          rw [hr5, hr4, hr3, hb]
          ring
        · rw [if_neg hid] at hxeq
          subst hxeq
          have hxid : ¬(r.1.staffId = some x.id) := by
            rw [hr1]
            intro hc
            apply hid
            rw [hr4]
            exact (Option.some.inj hc).symm
          rw [heldSum_cons, settleSum_cons,
            if_neg (fun hc => hxid hc.1), if_neg (fun hc => hxid hc.1),
            zero_add, zero_add]
          exact hInv x hx
      · intro t ht i hti
        simp only [applyEvent, hget, hset] at ht ⊢
        rcases List.mem_cons.mp ht with heq | hmem
        · subst heq
          have hi : i = s.id := by
            rw [hr1] at hti
            exact (Option.some.inj hti).symm
          subst hi
          exact ⟨r.2, List.mem_map.mpr ⟨s, hsmem, by rw [if_pos hr4.symm]⟩,
            hr4⟩
        · exact updateStaff_preserves_id _ _ _ (hLink t hmem i hti)

/-- Helper: after any event, every staff record either keeps an id that
was already present or is the staff created by a registration event. -/
theorem applyEvent_staff_ids (st : AppState) (e : LedgerEvent) :
    ∀ s' ∈ (applyEvent st e).staff,
      (∃ s ∈ st.staff, s'.id = s.id) ∨
      (∃ n p a ad pay now, e = .register n p a ad pay now ∧ s'.id = now) := by
  intro s' hs'
  cases e with
  | register n p a ad pay now =>
    cases hreg : handleAddStaff n p a ad pay now with
    | none =>
      simp only [applyEvent, hreg] at hs'
      exact Or.inl ⟨s', hs', rfl⟩
    | some s₀ =>
      simp only [applyEvent, hreg] at hs'
      rcases List.mem_append.mp hs' with hmem | hnew
      · exact Or.inl ⟨s', hmem, rfl⟩
      · have hs₀ : s' = s₀ := by simpa using hnew
        subst hs₀
        exact Or.inr ⟨n, p, a, ad, pay, now, rfl,
          (handleAddStaff_some n p a ad pay now _ hreg).1⟩
  | weeklyPay idx now =>
    cases hget : st.staff[idx]? with
    | none =>
      simp only [applyEvent, hget] at hs'
      exact Or.inl ⟨s', hs', rfl⟩
    | some s =>
      simp only [applyEvent, hget] at hs'
      obtain ⟨x, hx, hxeq⟩ := List.mem_map.mp hs'
      by_cases hid : x.id = (processWeeklyPay s now).2.id
      · rw [if_pos hid] at hxeq
        subst hxeq
        exact Or.inl ⟨s, List.getElem?_mem hget, rfl⟩
      · rw [if_neg hid] at hxeq
        subst hxeq
        exact Or.inl ⟨x, hx, rfl⟩
  | settle idx now =>
    cases hget : st.staff[idx]? with
    | none =>
      simp only [applyEvent, hget] at hs'
      exact Or.inl ⟨s', hs', rfl⟩
    | some s =>
      cases hset : settleMonthlyHold s now with
      | none =>
        simp only [applyEvent, hget, hset] at hs'
        exact Or.inl ⟨s', hs', rfl⟩
      | some r =>
        simp only [applyEvent, hget, hset] at hs'
        obtain ⟨x, hx, hxeq⟩ := List.mem_map.mp hs'
        by_cases hid : x.id = r.2.id
        · rw [if_pos hid] at hxeq
          subst hxeq
          exact Or.inl ⟨s, List.getElem?_mem hget,
            (settleMonthlyHold_some s now r hset).2.2.2.1⟩
        · rw [if_neg hid] at hxeq
          subst hxeq
          exact Or.inl ⟨x, hx, rfl⟩

/-- Helper: the escrow accounting and staff-link properties hold along
any trace whose registration timestamps avoid the current staff ids and
are mutually distinct. -/
theorem execFrom_inv (tr : List LedgerEvent) :
    ∀ st : AppState, EscrowInv st → StaffLinked st →
      (∀ s ∈ st.staff, s.id ∉ regTimes tr) →
      (regTimes tr).Nodup →
      EscrowInv (tr.foldl applyEvent st) ∧
      StaffLinked (tr.foldl applyEvent st) := by
  induction tr with
  | nil => exact fun st h1 h2 _ _ => ⟨h1, h2⟩
  | cons e es ih =>
    intro st h1 h2 hFresh hNodup
    rw [List.foldl_cons]
    cases e with
    | register n p a ad pay now =>
      have hf : ∀ s ∈ st.staff, s.id ≠ now := fun s hs => by
        have h := hFresh s hs
        simp only [regTimes, List.mem_cons] at h
        exact fun hc => h (Or.inl hc)
      obtain ⟨h1', h2'⟩ := register_preserves st n p a ad pay now h1 h2 hf
      have hNodup' : (regTimes es).Nodup ∧ now ∉ regTimes es := by
        have h := hNodup
        simp only [regTimes, List.nodup_cons] at h
        exact ⟨h.2, h.1⟩
      refine ih _ h1' h2' ?_ hNodup'.1
      intro s hs
      rcases applyEvent_staff_ids st (.register n p a ad pay now) s hs with
        ⟨x, hx, hxid⟩ | ⟨n', p', a', ad', pay', now', heq, hid⟩
      · rw [hxid]
        have h := hFresh x hx
        simp only [regTimes, List.mem_cons] at h
        exact fun hc => h (Or.inr hc)
      · cases heq
        rw [hid]
        exact hNodup'.2
    | weeklyPay idx now =>
      obtain ⟨h1', h2'⟩ := weeklyPay_preserves st idx now h1 h2
      refine ih _ h1' h2' ?_ hNodup
      intro s hs
      rcases applyEvent_staff_ids st (.weeklyPay idx now) s hs with
        ⟨x, hx, hxid⟩ | ⟨n', p', a', ad', pay', now', heq, _⟩
      · rw [hxid]
        exact hFresh x hx
      · cases heq
    | settle idx now =>
      obtain ⟨h1', h2'⟩ := settle_preserves st idx now h1 h2
      refine ih _ h1' h2' ?_ hNodup
      intro s hs
      rcases applyEvent_staff_ids st (.settle idx now) s hs with
        ⟨x, hx, hxid⟩ | ⟨n', p', a', ad', pay', now', heq, _⟩
      · rw [hxid]
        exact hFresh x hx
      · cases heq

/-- Helper: with non-negative registered base pays, base pay and held
balance stay non-negative along any trace. -/
theorem execFrom_nonneg (tr : List LedgerEvent) :
    ∀ st : AppState,
      (∀ s ∈ st.staff, 0 ≤ s.weeklyBasePay ∧ 0 ≤ s.totalHeldBalance) →
      (∀ e ∈ tr, 0 ≤ regPay e) →
      ∀ s ∈ (tr.foldl applyEvent st).staff,
        0 ≤ s.weeklyBasePay ∧ 0 ≤ s.totalHeldBalance := by
  induction tr with
  | nil => exact fun st h _ => h
  | cons e es ih =>
    intro st h hp
    rw [List.foldl_cons]
    refine ih _ ?_ (fun e' he' => hp e' (List.mem_cons_of_mem _ he'))
    cases e with
    | register n p a ad pay now =>
      cases hreg : handleAddStaff n p a ad pay now with
      | none =>
        intro s hs
        simp only [applyEvent, hreg] at hs
        exact h s hs
      | some s₀ =>
        intro s hs
        simp only [applyEvent, hreg] at hs
        rcases List.mem_append.mp hs with hmem | hnew
        · exact h s hmem
        · have hs₀ : s = s₀ := by simpa using hnew
          subst hs₀
          obtain ⟨_, hbal, hwp⟩ := handleAddStaff_some n p a ad pay now s hreg
          refine ⟨?_, le_of_eq hbal.symm⟩
          rw [hwp]
          have := hp (.register n p a ad pay now) (List.mem_cons_self _ _)
          simpa [regPay] using this
    | weeklyPay idx now =>
      cases hget : st.staff[idx]? with
      | none =>
        intro s hs
        simp only [applyEvent, hget] at hs
        exact h s hs
      | some s =>
        have hsmem : s ∈ st.staff := List.getElem?_mem hget
        intro x' hx'
        simp only [applyEvent, hget] at hx'
        obtain ⟨x, hx, hxeq⟩ := List.mem_map.mp hx'
        by_cases hid : x.id = (processWeeklyPay s now).2.id
        · rw [if_pos hid] at hxeq
          subst hxeq
          refine ⟨(h s hsmem).1, ?_⟩
          show (0 : ℚ) ≤ s.totalHeldBalance + s.weeklyBasePay * (0.60 : ℚ)
          have h4 : (0 : ℚ) ≤ s.weeklyBasePay * (0.60 : ℚ) :=
            mul_nonneg (h s hsmem).1 (by norm_num)
          exact add_nonneg (h s hsmem).2 h4
        · rw [if_neg hid] at hxeq
          subst hxeq
          exact h x hx
    | settle idx now =>
      cases hget : st.staff[idx]? with
      | none =>
        intro s hs
        simp only [applyEvent, hget] at hs
        exact h s hs
      | some s =>
        have hsmem : s ∈ st.staff := List.getElem?_mem hget
        cases hset : settleMonthlyHold s now with
        | none =>
          intro x hx
          simp only [applyEvent, hget, hset] at hx
          exact h x hx
        | some r =>
          intro x' hx'
          simp only [applyEvent, hget, hset] at hx'
          obtain ⟨x, hx, hxeq⟩ := List.mem_map.mp hx'
          obtain ⟨_, _, _, hr4, hr5⟩ := settleMonthlyHold_some s now r hset
          by_cases hid : x.id = r.2.id
          · rw [if_pos hid] at hxeq
            subst hxeq
            have hpay : r.2.weeklyBasePay = s.weeklyBasePay := by
              simp only [settleMonthlyHold] at hset
              by_cases hb : s.totalHeldBalance ≤ 0
              · rw [if_pos hb] at hset
                exact absurd hset (by simp)
              · rw [if_neg hb] at hset
                have he := Option.some.inj hset
                subst he
                rfl
            rw [hpay, hr5]
            exact ⟨(h s hsmem).1, le_refl 0⟩
          · rw [if_neg hid] at hxeq
            subst hxeq
            exact h x hx

/-- C3 amended: along every trace of registrations, weekly payouts and
settlements whose registration timestamps are pairwise distinct (so staff
ids are unique, as `Date.now()` intends), each staff member's
`totalHeldBalance` equals the sum of the held fractions of its weekly-pay
operations minus the sum of its settlements; it is moreover non-negative
provided every registration's base pay is non-negative. -/
theorem escrow_invariant_amended (tr : List LedgerEvent)
    (hNodup : (regTimes tr).Nodup) (hPays : ∀ e ∈ tr, 0 ≤ regPay e) :
    ∀ s ∈ (execEvents tr).staff,
      s.totalHeldBalance =
          heldSum s.id (execEvents tr).transactions
            - settleSum s.id (execEvents tr).transactions ∧
      0 ≤ s.totalHeldBalance := by
  intro s hs
  have h1 := (execFrom_inv tr ⟨[], []⟩
    (fun s hs => absurd hs (by simp))
    (fun t ht => absurd ht (by simp))
    (fun s hs => absurd hs (by simp)) hNodup).1
  have h2 := execFrom_nonneg tr ⟨[], []⟩
    (fun s hs => absurd hs (by simp)) hPays
  exact ⟨h1 s hs, (h2 s hs).2⟩

/-- Witness for C3 on the trace "register with pay 100, then one weekly
payout", whose single staff record holds `60`. -/
theorem escrow_invariant_amended_witness :
    (⟨1, "a", "9", "h", "aa", 100, 60, 1⟩ : StaffMember).totalHeldBalance
        = heldSum 1
            (execEvents [.register "a" "9" "h" "aa" (some 100) 1,
              .weeklyPay 0 2]).transactions
          - settleSum 1
            (execEvents [.register "a" "9" "h" "aa" (some 100) 1,
              .weeklyPay 0 2]).transactions ∧
    (0 : ℚ) ≤ (⟨1, "a", "9", "h", "aa", 100, 60, 1⟩
        : StaffMember).totalHeldBalance := by
  have hmem : (⟨1, "a", "9", "h", "aa", 100, 60, 1⟩ : StaffMember)
      ∈ (execEvents [.register "a" "9" "h" "aa" (some 100) 1,
          .weeklyPay 0 2]).staff := by
    simp [execEvents, applyEvent, handleAddStaff, processWeeklyPay,
      updateStaff, List.foldl]
    norm_num
  exact escrow_invariant_amended
    [.register "a" "9" "h" "aa" (some 100) 1, .weeklyPay 0 2]
    (by simp [regTimes])
    (by
      intro e he
      simp only [List.mem_cons, List.mem_singleton] at he
      rcases he with rfl | rfl | h
      · simp [regPay]
      · simp [regPay]
      · exact absurd h (by simp))
    ⟨1, "a", "9", "h", "aa", 100, 60, 1⟩ hmem

/-- C3 counterexample: the registration form accepts a negative salary
string, after which one weekly payout drives the held balance to `-3` —
a reachable state with a negative escrow balance. -/
theorem escrow_negative_reachable :
    ((execEvents [.register "a" "9" "h" "aa" (some (-5)) 1,
        .weeklyPay 0 2]).staff.map (fun s => s.totalHeldBalance))
      = [(-3 : ℚ)] ∧
    ((-3 : ℚ) < 0) := by
  constructor
  · simp [execEvents, applyEvent, handleAddStaff, processWeeklyPay,
      updateStaff, List.foldl]
    norm_num
  · norm_num

/-- C4 counterexample: with UTC offset `+330` minutes, a transaction
logged at 20:00 UTC falls on the *same local calendar day* as a "now" of
03:00 UTC the next day, yet the chart counts it in the previous bucket:
today's point shows income `0`, not the transaction's `500`. -/
theorem dailyChartData_localzone_cex :
    localDay 330 143760 = localDay 330 144180 ∧
    ((dailyChartData 144180
        [⟨"i", 143760, 500, "Sales", TransactionType.INCOME,
          PaymentMethod.CASH, "", none⟩]).getLast?).map (fun p => p.income)
      = some 0 ∧
    (⟨"i", 143760, 500, "Sales", TransactionType.INCOME,
      PaymentMethod.CASH, "", none⟩ : Transaction).type
      = TransactionType.INCOME ∧
    (⟨"i", 143760, 500, "Sales", TransactionType.INCOME,
      PaymentMethod.CASH, "", none⟩ : Transaction).amount = 500 := by
  refine ⟨by decide, ?_, rfl, rfl⟩
  simp [dailyChartData, last7Days_eq, utcDay]

end Chai
